import Mathlib

/-!
Shallow embedding of the endpoint-extraction and aggregation core of the
`deepseek-ai-web-crawler` repository: `src/utils/canvas_scraper.py`,
`src/utils/scraper_utils.py`, `src/utils/data_utils.py`, and the pure core of
`src/main.py` (`crawl_canvas_api`'s filter/dedup loop), with the required-key
list from `src/config.py`.

Modelling conventions:
* HTML documents are flat lists of nodes in document order; BeautifulSoup's
  `find_next` is an unbounded forward search over that list, and the nested
  `<a>` anchor of an `h2` heading is carried as a field of the `h2` node
  (already holding `get_text(strip=True)` results).
* Python strings are `String` / `List Char` (code points).  The regular
  expressions of the source are compiled by hand into executable functions
  with Python `re` semantics: leftmost match, alternatives in written order,
  greedy `\s+` / `[^\s]+`, non-greedy `(.*?)` with `.` not matching `'\n'`.
  `\s` and `\w` are modelled on their ASCII range (all strings in the source
  and in the documentation pages this code targets are ASCII).
* Python `set` is modelled as a `List String` used only through membership.
-/

/- ================= Python string primitives ================= -/

/-- Python `\s` (ASCII range): space, tab, newline, carriage return,
vertical tab, form feed. -/
def isPySpace (c : Char) : Bool :=
  c == ' ' || c == '\t' || c == '\n' || c == '\r' ||
  c == Char.ofNat 11 || c == Char.ofNat 12

/-- Whether `pat` occurs at the head of the second list. -/
def startsWithCs : List Char → List Char → Bool
  | [], _ => true
  | _ :: _, [] => false
  | p :: ps, c :: cs => p == c && startsWithCs ps cs

/-- Index of the first occurrence of `pat` (Python `str.find`, `none` for -1). -/
def findOcc (pat : List Char) : List Char → Option Nat
  | [] => if pat.isEmpty then some 0 else none
  | c :: cs =>
    if startsWithCs pat (c :: cs) then some 0
    else (findOcc pat cs).map (· + 1)

/-- Python `in` on strings (substring containment). -/
def listContains (pat cs : List Char) : Bool := (findOcc pat cs).isSome

/-- Python `str.strip()` on the ASCII whitespace class. -/
def pyStrip (cs : List Char) : List Char :=
  ((cs.dropWhile isPySpace).reverse.dropWhile isPySpace).reverse

/-- Python slicing `s[:n]` (first `n` code points). -/
def pyTake (s : String) (n : Nat) : String := String.mk (s.data.take n)

/-- Python `str.replace(old, new)` (all non-overlapping occurrences, left to
right); the fuel argument is instantiated with the string length, which the
recursion never exhausts because each step consumes at least one character
when `old` is nonempty. -/
def pyReplaceGo (old new : List Char) : Nat → List Char → List Char
  | 0, s => s
  | _ + 1, [] => []
  | fuel + 1, c :: cs =>
    if startsWithCs old (c :: cs) ∧ old ≠ [] then
      new ++ pyReplaceGo old new fuel ((c :: cs).drop old.length)
    else c :: pyReplaceGo old new fuel cs

def pyReplace (s old new : String) : String :=
  String.mk (pyReplaceGo old.data new.data (s.data.length + 1) s.data)

/-- Python `str.split(sep)` for a nonempty separator (fuelled like
`pyReplaceGo`; the accumulator holds the current piece reversed). -/
def pySplitGo (sep : List Char) : Nat → List Char → List Char → List (List Char)
  | 0, cur, rest => [cur.reverse ++ rest]
  | _ + 1, cur, [] => [cur.reverse]
  | fuel + 1, cur, c :: cs =>
    if startsWithCs sep (c :: cs) ∧ sep ≠ [] then
      cur.reverse :: pySplitGo sep fuel [] ((c :: cs).drop sep.length)
    else pySplitGo sep fuel (c :: cur) cs

def pySplit (s sep : String) : List String :=
  (pySplitGo sep.data (s.data.length + 1) [] s.data).map String.mk

/- ================= Data model ================= -/

/-- One row of the parameters table: the first three `<td>` texts. -/
structure Param where
  name : String
  type : String
  description : String
deriving DecidableEq, Repr

/-- The endpoint dictionary built by
`canvas_scraper.extract_endpoint_from_section`. -/
structure Endpoint where
  resource : String
  name : String
  http_method : String
  path : String
  description : String
  parameters : List Param
  example_request : String
  example_response : String
deriving DecidableEq, Repr

/-- The endpoint dictionary built by `scraper_utils.parse_api_method`
(different optional fields: a single `example`). -/
structure ApiMethodEndpoint where
  resource : String
  name : String
  http_method : String
  path : String
  description : String
  parameters : List Param
  exampleText : Option String
deriving DecidableEq, Repr

/- ================= HTML document model ================= -/

/-- A node of the parsed page, in document order.  An `h2` carries the
`get_text(strip=True)` of its first nested `<a>` (if any); a table carries its
rows as lists of `<td>` texts. -/
inductive HtmlNode where
  | h2 (anchorText : Option String)
  | h3 (text : String)
  | p (text : String)
  | tableNode (rows : List (List String))
  | h4 (text : String)
  | preNode (text : String)
  | other
deriving DecidableEq, Repr

def nodeText : HtmlNode → String
  | .h3 t => t
  | .p t => t
  | .h4 t => t
  | .preNode t => t
  | _ => ""

def isH2Node : HtmlNode → Bool
  | .h2 _ => true
  | _ => false

def isH3Node : HtmlNode → Bool
  | .h3 _ => true
  | _ => false

def isPNode : HtmlNode → Bool
  | .p _ => true
  | _ => false

def isTableNode : HtmlNode → Bool
  | .tableNode _ => true
  | _ => false

def isPreNode : HtmlNode → Bool
  | .preNode _ => true
  | _ => false

/-- The lambdas `tag.name == "h4" and "Example Request"/"Example Response" in
tag.text` passed to `find_next`. -/
def isExampleH4 (marker : String) : HtmlNode → Bool
  | .h4 t => listContains marker.data t.data
  | _ => false

def tableRows : HtmlNode → List (List String)
  | .tableNode rows => rows
  | _ => []

def getNode (doc : List HtmlNode) (i : Nat) : HtmlNode := doc.getD i .other

/-- BeautifulSoup `find_next`: the first node strictly after position `i`
satisfying `pred`, anywhere in the rest of the document. -/
def find_next (doc : List HtmlNode) (i : Nat) (pred : HtmlNode → Bool) : Option Nat :=
  match (doc.drop (i + 1)).findIdx? pred with
  | some k => some (i + 1 + k)
  | none => none

/- ================= canvas_scraper.py ================= -/

/-- The alternatives of `re.match(r"(GET|POST|PUT|DELETE)\s+(/[^\s]+)", ...)`
in `extract_endpoint_from_section` (note: no PATCH in this variant). -/
def CANVAS_METHODS : List String := ["GET", "POST", "PUT", "DELETE"]

/-- Match one alternative `M` of the pattern `(M)\s+(/[^\s]+)` at the start of
`cs`, returning the two groups. -/
def tryMethodAt (m : String) (cs : List Char) : Option (String × String) :=
  if startsWithCs m.data cs then
    let rest := cs.drop m.data.length
    let ws := rest.takeWhile isPySpace
    if ws.isEmpty then none
    else
      match rest.drop ws.length with
      | '/' :: more =>
        let seg := more.takeWhile (fun c => !(isPySpace c))
        if seg.isEmpty then none
        else some (m, String.mk ('/' :: seg))
      | _ => none
  else none

/-- Try the alternatives in their written order at one position. -/
def tryAnyMethodAt : List String → List Char → Option (String × String)
  | [], _ => none
  | m :: ms, cs =>
    match tryMethodAt m cs with
    | some r => some r
    | none => tryAnyMethodAt ms cs

/-- Models `re.match(r"(GET|POST|PUT|DELETE)\s+(/[^\s]+)", http_path)`: anchored at
the start of the string. -/
def method_match (s : String) : Option (String × String) :=
  tryAnyMethodAt CANVAS_METHODS s.data

/-- Models `canvas_scraper.extract_endpoint_from_section`, with the section given as
an index `i` into the document.  Mirrors the source line by line: the anchor
text is the name (empty → discard), the method/path come from the next `h3`
anywhere forward in the document, the description from the first `p` after
that `h3`, the parameters from the next table after the section, and the
examples from forward searches for the marker `h4`s. -/
def extract_endpoint_from_section (doc : List HtmlNode) (i : Nat)
    (resource_name : String) : Option Endpoint :=
  let name := match getNode doc i with
    | .h2 (some t) => t
    | _ => ""
  if name = "" then none
  else
    match find_next doc i isH3Node with
    | none => none
    | some j =>
      let http_path := nodeText (getNode doc j)
      match method_match http_path with
      | none => none
      | some (http_method, path) =>
        let description := match find_next doc j isPNode with
          | some k => nodeText (getNode doc k)
          | none => ""
        let parameters :=
          match find_next doc i isTableNode with
          | some k =>
            ((tableRows (getNode doc k)).drop 1).filterMap fun cells =>
              match cells with
              | n :: t :: d :: _ => some (Param.mk n t d)
              | _ => none
          | none => []
        let example_request :=
          match find_next doc i (isExampleH4 "Example Request") with
          | some k =>
            match find_next doc k isPreNode with
            | some l => nodeText (getNode doc l)
            | none => ""
          | none => ""
        let example_response :=
          match find_next doc i (isExampleH4 "Example Response") with
          | some k =>
            match find_next doc k isPreNode with
            | some l => nodeText (getNode doc l)
            | none => ""
          | none => ""
        some { resource := resource_name, name := name, http_method := http_method,
               path := path, description := description, parameters := parameters,
               example_request := example_request, example_response := example_response }

/-- Models `canvas_scraper.parse_canvas_api_page`: run the extraction on every `h2`
of the document (the `div > div > h2` selector, with the wrapper divs
abstracted away by the flat model), keeping the successful ones in order. -/
def parse_canvas_api_page (doc : List HtmlNode) (resource_name : String) : List Endpoint :=
  (List.range doc.length).filterMap fun i =>
    if isH2Node (getNode doc i) then extract_endpoint_from_section doc i resource_name
    else none

/- ================= scraper_utils.py ================= -/

/-- The alternatives of `(GET|POST|PUT|DELETE|PATCH)` in `parse_api_method`. -/
def API_METHODS : List String := ["GET", "POST", "PUT", "DELETE", "PATCH"]

/-- Models `re.search(r"(GET|POST|PUT|DELETE|PATCH)\s+(/[^\s]+)", s)`: the leftmost
position at which some alternative matches wins. -/
def re_search_strict : List Char → Option (String × String)
  | [] => none
  | c :: cs =>
    match tryAnyMethodAt API_METHODS (c :: cs) with
    | some r => some r
    | none => re_search_strict cs

/-- The character class `[\/\w\.\-]` of the fallback pattern
(`\w` on its ASCII range). -/
def isLoosePathChar (c : Char) : Bool :=
  c == '/' || c.isAlphanum || c == '_' || c == '.' || c == '-'

/-- Match one alternative of `(M)\s+([\/\w\.\-]+)` at the start of `cs`. -/
def tryMethodLooseAt (m : String) (cs : List Char) : Option (String × String) :=
  if startsWithCs m.data cs then
    let rest := cs.drop m.data.length
    let ws := rest.takeWhile isPySpace
    if ws.isEmpty then none
    else
      let seg := (rest.drop ws.length).takeWhile isLoosePathChar
      if seg.isEmpty then none else some (m, String.mk seg)
  else none

def tryAnyMethodLooseAt : List String → List Char → Option (String × String)
  | [], _ => none
  | m :: ms, cs =>
    match tryMethodLooseAt m cs with
    | some r => some r
    | none => tryAnyMethodLooseAt ms cs

/-- Models `re.search(r"(GET|POST|PUT|DELETE|PATCH)\s+([\/\w\.\-]+)", s)`. -/
def re_search_loose : List Char → Option (String × String)
  | [] => none
  | c :: cs =>
    match tryAnyMethodLooseAt API_METHODS (c :: cs) with
    | some r => some r
    | none => re_search_loose cs

/-- The two-pattern search sequence at the top of `parse_api_method`: the
strict pattern first, then the looser fallback. -/
def match_api_text (s : String) : Option (String × String) :=
  match re_search_strict s.data with
  | some r => some r
  | none => re_search_loose s.data

/-- A sibling in the `next_sibling` chain: a tag with a name and its stripped
text, or a bare text node. -/
inductive SibNode where
  | tag (nm : String) (text : String)
  | txt (s : String)
deriving DecidableEq, Repr

/-- The h2 element handed to `parse_api_method`: its stripped text, its
following siblings in order, its `title` attribute, and its parent's stripped
text (when it has a parent). -/
structure MethodElement where
  text : String
  siblings : List SibNode
  title : Option String
  parentText : Option String
deriving DecidableEq, Repr

/-- The sibling scan of `parse_api_method`: at most 10 siblings, stopping at a
falsy node (end of chain, or an empty text node), accepting the first `p` or
`div` tag whose stripped text is longer than 10 characters. -/
def find_description : Nat → List SibNode → Option String
  | 0, _ => none
  | _ + 1, [] => none
  | fuel + 1, sib :: rest =>
    match sib with
    | .txt s => if s = "" then none else find_description fuel rest
    | .tag nm t =>
      if (nm = "p" ∨ nm = "div") ∧ t ≠ "" ∧ t.length > 10 then some t
      else find_description fuel rest

/-- scraper_utils.py lines 233-234:
`description[:500] + "..." if len(description) > 500 else description`. -/
def truncate500 (d : String) : String :=
  if d.length > 500 then pyTake d 500 ++ "..." else d

/-- The description fallback chain of `parse_api_method`: sibling scan, then
the `title` attribute (when no sibling matched and the attribute is truthy),
then the parent's text with the method text removed and stripped (when the
parent's text is nonempty and differs from the method text), then the
synthesized `f"API endpoint for {path}"`. -/
def derive_description (el : MethodElement) (path : String) : String :=
  let method_text := el.text
  let sibDescr := find_description 10 el.siblings
  let d1 := sibDescr.getD ""
  let d2 := if sibDescr.isNone ∧ el.title.getD "" ≠ "" then el.title.getD "" else d1
  let d3 :=
    if d2 = "" then
      match el.parentText with
      | some pt =>
        if pt ≠ "" ∧ pt ≠ method_text then
          String.mk (pyStrip (pyReplace pt method_text "").data)
        else ""
      | none => ""
    else d2
  if d3 = "" then "API endpoint for " ++ path else d3

/-- The name derivation of `parse_api_method`: the last segment of
`path.split("/")` when truthy, else the path itself, with the synthesized
`f"{http_method} {resource_name} endpoint"` when that is empty or `"/"`. -/
def derive_name (http_method path resource_name : String) : String :=
  let name_parts := pySplit path "/"
  let lastPart := name_parts.getLastD ""
  let name0 := if lastPart ≠ "" then lastPart else path
  if name0 = "" ∨ name0 = "/" then http_method ++ " " ++ resource_name ++ " endpoint"
  else name0

/-- Models `scraper_utils.parse_api_method`, mirrored clause by clause: the
two-pattern method/path search (failure of both → `None`), the description
fallback chain with the 500-character truncation, and the name derivation
from the last path segment. -/
def parse_api_method (el : MethodElement) (resource_name : String) :
    Option ApiMethodEndpoint :=
  match match_api_text el.text with
  | none => none
  | some (http_method, path) =>
    some { resource := resource_name,
           name := derive_name http_method path resource_name,
           http_method := http_method, path := path,
           description := truncate500 (derive_description el path),
           parameters := [], exampleText := none }

/- ================= data_utils.py ================= -/

/-- Computes `scope_parts[1]` of `description.split("Scope:")`: the text strictly
between the first occurrence of the marker and the next one (or the end of
the string); `none` when the marker does not occur. -/
def scope_part1 (cs : List Char) : Option (List Char) :=
  match findOcc ("Scope:".data) cs with
  | none => none
  | some i =>
    let rest := cs.drop (i + 6)
    match findOcc ("Scope:".data) rest with
    | none => some rest
    | some j => some (rest.take j)

/-- The shortest newline-free run of characters before a literal `</code>`
(`none` when no close occurs before a newline or the end). -/
def codeClose : List Char → Option (List Char)
  | [] => none
  | c :: cs =>
    if startsWithCs ("</code>".data) (c :: cs) then some []
    else if c = '\n' then none
    else (codeClose cs).map (c :: ·)

/-- Models `re.search(r"<code>(.*?)</code>", s)`: leftmost start, non-greedy body,
`.` not matching a newline; returns the captured group. -/
def findCodeMatch : List Char → Option (List Char)
  | [] => none
  | c :: cs =>
    if startsWithCs ("<code>".data) (c :: cs) then
      match codeClose ((c :: cs).drop 6) with
      | some content => some content
      | none => findCodeMatch cs
    else findCodeMatch cs

/-- Models `data_utils.extract_scope` applied to the description string of the endpoint:
marker split, `<code>` capture, else text up to the first period (or, failing
that, newline), stripped; empty when the marker is absent. -/
def extract_scope (description : String) : String :=
  match scope_part1 description.data with
  | none => ""
  | some part =>
    match findCodeMatch part with
    | some content => String.mk content
    | none =>
      let end_pos := match findOcc ['.'] part with
        | some i => some i
        | none => findOcc ['\n'] part
      match end_pos with
      | none => String.mk (pyStrip part)
      | some i => String.mk (pyStrip (part.take i))

/-- data_utils.py lines 41-43: the tabular projection's 200-character
description cap. -/
def truncate200 (d : String) : String :=
  if d.length > 200 then pyTake d 200 ++ "..." else d

/-- One CSV row of `save_endpoints_to_csv` (fixed column set). -/
structure CsvRow where
  resource : String
  name : String
  http_method : String
  path : String
  description : String
  scope : String
  parameter_count : Nat
deriving DecidableEq, Repr

/-- The row built for one endpoint inside `save_endpoints_to_csv`. -/
def endpoint_to_row (e : Endpoint) : CsvRow :=
  { resource := e.resource, name := e.name, http_method := e.http_method,
    path := e.path, description := truncate200 e.description,
    scope := extract_scope e.description,
    parameter_count := e.parameters.length }

/-- Models `data_utils.save_endpoints_to_csv` restricted to its pure content: the
sequence of rows written. -/
def save_endpoints_to_csv (endpoints : List Endpoint) : List CsvRow :=
  endpoints.map endpoint_to_row

/- ================= main.py / config.py ================= -/

/-- Models the `config.REQUIRED_KEYS` check
`all(key in endpoint and endpoint[key] for key in REQUIRED_KEYS)`: all five
keys are always present in the extractor's dictionaries, so the check is the
truthiness (non-emptiness) of the five strings. -/
def requiredOk (e : Endpoint) : Prop :=
  e.resource ≠ "" ∧ e.name ≠ "" ∧ e.http_method ≠ "" ∧ e.path ≠ "" ∧
  e.description ≠ ""

instance (e : Endpoint) : Decidable (requiredOk e) := by
  unfold requiredOk; infer_instance

/-- Models the unique-id f-string of the loop: resource, http_method and path joined by underscores. -/
def endpoint_id (e : Endpoint) : String :=
  e.resource ++ "_" ++ e.http_method ++ "_" ++ e.path

/-- The aggregator state of `crawl_canvas_api`: `seen_endpoint_ids` (a set,
modelled as a list used through membership) and `all_endpoints`. -/
structure AggState where
  seen : List String
  out : List Endpoint
deriving DecidableEq, Repr

def agg_init : AggState := ⟨[], []⟩

/-- One iteration of the filter/dedup loop in `main.crawl_canvas_api`:
skip on a seen id, then skip on a failing required-key check, else record. -/
def stepAgg (s : AggState) (e : Endpoint) : AggState :=
  if endpoint_id e ∈ s.seen then s
  else if requiredOk e then
    { seen := endpoint_id e :: s.seen, out := s.out ++ [e] }
  else s

/-- One resource page's batch folded into the aggregator state. -/
def processBatch (s : AggState) (es : List Endpoint) : AggState :=
  es.foldl stepAgg s

/-- The pure core of `main.crawl_canvas_api`: fetching and file IO stripped,
each page given as its parsed document plus resource name, processed in
order from the empty state. -/
def crawl_canvas_api (pages : List (List HtmlNode × String)) : AggState :=
  pages.foldl (fun s pg => processBatch s (parse_canvas_api_page pg.1 pg.2)) agg_init

/-- The aggregator's loop invariant: every accepted record's id is in the
seen-set, and accepted ids are pairwise distinct. -/
def AggInv (s : AggState) : Prop :=
  (∀ e ∈ s.out, endpoint_id e ∈ s.seen) ∧
  s.out.Pairwise (fun a b => endpoint_id a ≠ endpoint_id b)

/- ================= Concrete fixtures used by the theorems ================= -/

/-- The end-to-end scenario page: one endpoint section whose method heading
reads "GET /api/v1/users", followed by the description paragraph and a
parameter table with a header row and 2 parameter rows. -/
def doc_users : List HtmlNode :=
  [.h2 (some "List users"), .h3 "GET /api/v1/users", .p "Lists users.",
   .tableNode [["Parameter", "Type", "Description"],
               ["search_term", "string", "Filter results"],
               ["sort", "string", "Sort order"]]]

/-- The record the extractor produces from `doc_users`. -/
def endpoint_users : Endpoint :=
  { resource := "Users", name := "List users", http_method := "GET",
    path := "/api/v1/users", description := "Lists users.",
    parameters := [⟨"search_term", "string", "Filter results"⟩,
                   ⟨"sort", "string", "Sort order"⟩],
    example_request := "", example_response := "" }

/-- A page whose first heading ("Alpha") has an anchor but no `h3`, table or
paragraph of its own before the next endpoint section ("Beta") starts. -/
def doc_cross : List HtmlNode :=
  [.h2 (some "Alpha"), .h2 (some "Beta"), .h3 "POST /api/v1/things",
   .p "Creates a thing.",
   .tableNode [["Parameter", "Type", "Description"], ["id", "integer", "the id"]]]

/-- A section with a valid method heading and description but no anchor text
on its `h2`. -/
def doc_noname : List HtmlNode :=
  [.h2 none, .h3 "GET /api/v1/users", .p "This is a long description.",
   .tableNode [["Parameter", "Type", "Description"], ["id", "integer", "the id"]]]

/-- The same section as `doc_noname` with the anchor text present. -/
def doc_named : List HtmlNode :=
  [.h2 (some "List users"), .h3 "GET /api/v1/users", .p "This is a long description.",
   .tableNode [["Parameter", "Type", "Description"], ["id", "integer", "the id"]]]

/-- A section whose method heading uses the non-enumerated verb FETCH. -/
def doc_fetch : List HtmlNode :=
  [.h2 (some "Fetch foo"), .h3 "FETCH /foo", .p "Some long description."]

/-- Identity-key collision pair: distinct (resource, method, path) triples
with the same concatenated id `"A_GET_/x_POST_/y"`. -/
def endpoint_collide_a : Endpoint := ⟨"A", "n1", "GET", "/x_POST_/y", "d1", [], "", ""⟩

def endpoint_collide_b : Endpoint := ⟨"A_GET_/x", "n2", "POST", "/y", "d2", [], "", ""⟩

/-- An h2 element for `parse_api_method` whose own text is the method line,
with no siblings, title attribute, or parent. -/
def el_get_users : MethodElement := ⟨"GET /api/v1/users", [], none, none⟩

/-- The record `parse_api_method` produces from `el_get_users`. -/
def rec_get_users : ApiMethodEndpoint :=
  ⟨"Users", "users", "GET", "/api/v1/users", "API endpoint for /api/v1/users", [], none⟩

def el_fetch : MethodElement := ⟨"FETCH /foo", [], none, none⟩

/-- A 600-character description. -/
def descr600 : String := String.mk (List.replicate 600 'a')

/- ================= String helper lemmas ================= -/

theorem string_data_append (a b : String) : (a ++ b).data = a.data ++ b.data := by
  cases a; cases b; rfl

theorem string_length_append (a b : String) : (a ++ b).length = a.length + b.length := by
  show (a ++ b).data.length = a.data.length + b.data.length
  rw [string_data_append, List.length_append]

theorem string_length_zero (s : String) (h : s.length = 0) : s = "" := by
  cases s with
  | mk l =>
    have : l = [] := List.length_eq_zero.mp h
    rw [this]

theorem append_ne_empty_right (a b : String) (h : b ≠ "") : a ++ b ≠ "" := by
  intro he
  apply h
  have hl : (a ++ b).length = 0 := by rw [he]; rfl
  rw [string_length_append] at hl
  exact string_length_zero b (by omega)

theorem append_ne_empty_left (a b : String) (h : a ≠ "") : a ++ b ≠ "" := by
  intro he
  apply h
  have hl : (a ++ b).length = 0 := by rw [he]; rfl
  rw [string_length_append] at hl
  exact string_length_zero a (by omega)

theorem pyTake_length (s : String) (n : Nat) : (pyTake s n).length = min n s.length := by
  show (s.data.take n).length = min n s.data.length
  exact List.length_take n s.data

theorem truncate500_ne_empty (d : String) (h : d ≠ "") : truncate500 d ≠ "" := by
  unfold truncate500
  split
  · exact append_ne_empty_right _ _ (by decide)
  · exact h

theorem truncate200_length_le (x : String) : (truncate200 x).length ≤ 203 := by
  unfold truncate200
  split
  · rw [string_length_append, pyTake_length]
    have : ("..." : String).length = 3 := rfl
    omega
  · omega

/-- C8: a 600-character description is truncated by the extractor path to its
first 500 characters plus "...", the tabular projection further truncates to
the first 200 characters plus "...", and the composition never renders more
than 200 characters plus the 3-character ellipsis. -/
theorem description_truncation_roundtrip :
    (∀ d : String, d.length = 600 →
      truncate500 d = pyTake d 500 ++ "..." ∧
      (truncate500 d).length = 503 ∧
      truncate200 (truncate500 d) = pyTake d 200 ++ "..." ∧
      (truncate200 (truncate500 d)).length = 203) ∧
    (∀ d : String, (truncate200 (truncate500 d)).length ≤ 200 + 3) := by
  constructor
  · intro d h
    have h500 : d.length > 500 := by omega
    have ht : truncate500 d = pyTake d 500 ++ "..." := by
      unfold truncate500; rw [if_pos h500]
    have hlen : (truncate500 d).length = 503 := by
      rw [ht, string_length_append, pyTake_length, h]
      rfl
    have h200 : (truncate500 d).length > 200 := by omega
    have ht2 : truncate200 (truncate500 d) = pyTake d 200 ++ "..." := by
      unfold truncate200
      rw [if_pos h200, ht]
      congr 1
      show String.mk ((pyTake d 500 ++ "...").data.take 200) = String.mk (d.data.take 200)
      rw [string_data_append]
      congr 1
      show ((d.data.take 500) ++ ("...").data).take 200 = d.data.take 200
      have hd : d.data.length = 600 := h
      rw [List.take_append_of_le_length (by rw [List.length_take]; omega), List.take_take]
      norm_num
    refine ⟨ht, hlen, ht2, ?_⟩
    rw [ht2, string_length_append, pyTake_length, h]
    rfl
  · intro d
    exact truncate200_length_le _

/-- C7: scope extraction returns exactly the code-tag content after the
literal marker "Scope:", else the free text up to the next period, and the
empty string whenever the marker is absent from the description. -/
theorem scope_extraction_spec :
    extract_scope "Scope: <code>url:GET|/api/v1/users</code> more text." =
      "url:GET|/api/v1/users" ∧
    extract_scope "Scope: allows read access. Other info." = "allows read access" ∧
    ∀ d : String, findOcc ("Scope:".data) d.data = none → extract_scope d = "" := by
  refine ⟨by decide, by decide, ?_⟩
  intro d h
  unfold extract_scope scope_part1
  rw [h]

theorem scope_extraction_witness :
    extract_scope "Lists users." = "" :=
  scope_extraction_spec.2.2 "Lists users." (by decide)

/- ================= Regex alternative lemmas ================= -/

theorem tryMethodAt_fst (m : String) (cs : List Char) (r : String × String)
    (h : tryMethodAt m cs = some r) : r.1 = m := by
  simp only [tryMethodAt] at h
  split at h
  · split at h
    · cases h
    · split at h
      · split at h
        · cases h
        · cases h; rfl
      · cases h
  · cases h

theorem tryAnyMethodAt_mem (ms : List String) (cs : List Char) (r : String × String)
    (h : tryAnyMethodAt ms cs = some r) : r.1 ∈ ms := by
  induction ms with
  | nil => cases h
  | cons m ms ih =>
    unfold tryAnyMethodAt at h
    split at h
    · rename_i heq
      cases h
      rw [tryMethodAt_fst m cs _ heq]
      exact List.mem_cons_self _ _
    · exact List.mem_cons_of_mem _ (ih h)

theorem re_search_strict_mem (cs : List Char) (r : String × String)
    (h : re_search_strict cs = some r) : r.1 ∈ API_METHODS := by
  induction cs with
  | nil => cases h
  | cons c cs ih =>
    unfold re_search_strict at h
    split at h
    · rename_i heq
      cases h
      exact tryAnyMethodAt_mem _ _ _ heq
    · exact ih h

theorem tryMethodLooseAt_fst (m : String) (cs : List Char) (r : String × String)
    (h : tryMethodLooseAt m cs = some r) : r.1 = m := by
  simp only [tryMethodLooseAt] at h
  split at h
  · split at h
    · cases h
    · split at h
      · cases h
      · cases h; rfl
  · cases h

theorem tryAnyMethodLooseAt_mem (ms : List String) (cs : List Char) (r : String × String)
    (h : tryAnyMethodLooseAt ms cs = some r) : r.1 ∈ ms := by
  induction ms with
  | nil => cases h
  | cons m ms ih =>
    unfold tryAnyMethodLooseAt at h
    split at h
    · rename_i heq
      cases h
      rw [tryMethodLooseAt_fst m cs _ heq]
      exact List.mem_cons_self _ _
    · exact List.mem_cons_of_mem _ (ih h)

theorem re_search_loose_mem (cs : List Char) (r : String × String)
    (h : re_search_loose cs = some r) : r.1 ∈ API_METHODS := by
  induction cs with
  | nil => cases h
  | cons c cs ih =>
    unfold re_search_loose at h
    split at h
    · rename_i heq
      cases h
      exact tryAnyMethodLooseAt_mem _ _ _ heq
    · exact ih h

theorem match_api_text_mem (s : String) (r : String × String)
    (h : match_api_text s = some r) : r.1 ∈ API_METHODS := by
  unfold match_api_text at h
  split at h
  · rename_i heq
    cases h
    exact re_search_strict_mem _ _ heq
  · exact re_search_loose_mem _ _ h

theorem method_match_mem (s : String) (r : String × String)
    (h : method_match s = some r) : r.1 ∈ CANVAS_METHODS :=
  tryAnyMethodAt_mem _ _ _ h

theorem canvas_methods_sub : ∀ m ∈ CANVAS_METHODS, m ∈ API_METHODS := by decide

theorem extract_succeeds_of_method (doc : List HtmlNode) (i : Nat) (r nm : String) (j : Nat)
    (m p : String) (h1 : getNode doc i = HtmlNode.h2 (some nm)) (h2 : nm ≠ "")
    (h3 : find_next doc i isH3Node = some j)
    (h4 : method_match (nodeText (getNode doc j)) = some (m, p)) :
    ∃ e, extract_endpoint_from_section doc i r = some e ∧
      e.http_method = m ∧ e.path = p ∧ e.name = nm := by
  simp only [extract_endpoint_from_section, h1, h3, h4]
  rw [if_neg h2]
  exact ⟨_, rfl, rfl, rfl, rfl⟩

theorem name_shape_ne (x m r : String) :
    (if x = "" ∨ x = "/" then m ++ " " ++ r ++ " endpoint" else x) ≠ "" := by
  split
  · exact append_ne_empty_right _ _ (by decide)
  · rename_i h
    push_neg at h
    exact h.1

theorem derive_name_ne_empty (m p r : String) : derive_name m p r ≠ "" := by
  unfold derive_name
  exact name_shape_ne _ m r

theorem desc_shape_ne (y p : String) :
    (if y = "" then "API endpoint for " ++ p else y) ≠ "" := by
  split
  · exact append_ne_empty_left _ _ (by decide)
  · rename_i h
    exact h

theorem derive_description_ne_empty (el : MethodElement) (p : String) :
    derive_description el p ≠ "" := by
  unfold derive_description
  exact desc_shape_ne _ p

theorem parse_api_method_total (el : MethodElement) (r m p : String)
    (h : match_api_text el.text = some (m, p)) :
    ∃ rec, parse_api_method el r = some rec ∧ rec.http_method = m ∧ rec.path = p ∧
      rec.name ≠ "" ∧ rec.description ≠ "" := by
  simp only [parse_api_method, h]
  exact ⟨_, rfl, rfl, rfl, derive_name_ne_empty m p r,
    truncate500_ne_empty _ (derive_description_ne_empty el p)⟩

theorem extract_method_mem (doc : List HtmlNode) (i : Nat) (r : String) (e : Endpoint)
    (h : extract_endpoint_from_section doc i r = some e) :
    e.http_method ∈ CANVAS_METHODS := by
  simp only [extract_endpoint_from_section] at h
  split at h
  · cases h
  · split at h
    · cases h
    · split at h
      · cases h
      · rename_i heq4
        cases h
        simpa using method_match_mem _ _ heq4

/- ================= Aggregator lemmas ================= -/

theorem stepAgg_seen_mono (s : AggState) (e : Endpoint) : s.seen ⊆ (stepAgg s e).seen := by
  unfold stepAgg
  split
  · exact fun a h => h
  · split
    · exact fun a h => List.mem_cons_of_mem _ h
    · exact fun a h => h

theorem processBatch_seen_mono (s : AggState) (es : List Endpoint) :
    s.seen ⊆ (processBatch s es).seen := by
  induction es generalizing s with
  | nil => exact fun a h => h
  | cons e es ih =>
    exact fun a h => ih (stepAgg s e) (stepAgg_seen_mono s e h)

theorem processBatch_saturates (s : AggState) (es : List Endpoint) :
    ∀ e ∈ es, endpoint_id e ∈ (processBatch s es).seen ∨ ¬ requiredOk e := by
  induction es generalizing s with
  | nil => intro e h; cases h
  | cons c es ih =>
    intro e h
    rcases List.mem_cons.mp h with rfl | h
    · by_cases hseen : endpoint_id e ∈ s.seen
      · exact Or.inl (processBatch_seen_mono (stepAgg s e) es (stepAgg_seen_mono s e hseen))
      · by_cases hreq : requiredOk e
        · left
          apply processBatch_seen_mono (stepAgg s e) es
          unfold stepAgg
          rw [if_neg hseen, if_pos hreq]
          exact List.mem_cons_self _ _
        · exact Or.inr hreq
    · exact ih (stepAgg s c) e h

theorem stepAgg_skip (s : AggState) (e : Endpoint)
    (h : endpoint_id e ∈ s.seen ∨ ¬ requiredOk e) : stepAgg s e = s := by
  unfold stepAgg
  rcases h with h | h
  · rw [if_pos h]
  · by_cases hseen : endpoint_id e ∈ s.seen
    · rw [if_pos hseen]
    · rw [if_neg hseen, if_neg h]

theorem processBatch_skip (s : AggState) (es : List Endpoint)
    (h : ∀ e ∈ es, endpoint_id e ∈ s.seen ∨ ¬ requiredOk e) : processBatch s es = s := by
  induction es with
  | nil => rfl
  | cons c es ih =>
    have hc : stepAgg s c = s := stepAgg_skip s c (h c (List.mem_cons_self _ _))
    show processBatch (stepAgg s c) es = s
    rw [hc]
    exact ih (fun e he => h e (List.mem_cons_of_mem _ he))

/- order/filter decomposition -/
theorem processBatch_out_decomp (s : AggState) (es : List Endpoint) :
    ∃ acc : List Endpoint, acc.Sublist es ∧ (processBatch s es).out = s.out ++ acc ∧
      ∀ e ∈ acc, requiredOk e := by
  induction es generalizing s with
  | nil => exact ⟨[], List.Sublist.refl _, by simp [processBatch], by intro e h; cases h⟩
  | cons c es ih =>
    by_cases hseen : endpoint_id c ∈ s.seen
    · obtain ⟨acc, hsub, hout, hreq⟩ := ih s
      refine ⟨acc, hsub.cons c, ?_, hreq⟩
      show (processBatch (stepAgg s c) es).out = s.out ++ acc
      rw [stepAgg_skip s c (Or.inl hseen)]
      exact hout
    · by_cases hreqc : requiredOk c
      · obtain ⟨acc, hsub, hout, hreq⟩ :=
          ih { seen := endpoint_id c :: s.seen, out := s.out ++ [c] }
        refine ⟨c :: acc, hsub.cons₂ c, ?_, ?_⟩
        · show (processBatch (stepAgg s c) es).out = s.out ++ (c :: acc)
          unfold stepAgg
          rw [if_neg hseen, if_pos hreqc]
          rw [hout]
          simp
        · intro e he
          rcases List.mem_cons.mp he with rfl | he
          · exact hreqc
          · exact hreq e he
      · obtain ⟨acc, hsub, hout, hreq⟩ := ih s
        refine ⟨acc, hsub.cons c, ?_, hreq⟩
        show (processBatch (stepAgg s c) es).out = s.out ++ acc
        rw [stepAgg_skip s c (Or.inr hreqc)]
        exact hout

theorem aggInv_init : AggInv agg_init := by
  constructor
  · intro e h; cases h
  · exact List.Pairwise.nil

theorem aggInv_step (s : AggState) (e : Endpoint) (h : AggInv s) : AggInv (stepAgg s e) := by
  unfold stepAgg
  split
  · exact h
  · split
    · rename_i hseen _
      constructor
      · intro a ha
        rcases List.mem_append.mp ha with ha | ha
        · exact List.mem_cons_of_mem _ (h.1 a ha)
        · rcases List.mem_singleton.mp ha with rfl
          exact List.mem_cons_self _ _
      · rw [List.pairwise_append]
        refine ⟨h.2, List.pairwise_singleton _ _, ?_⟩
        intro a ha b hb
        rcases List.mem_singleton.mp hb with rfl
        intro hid
        exact hseen (hid ▸ h.1 a ha)
    · exact h

theorem aggInv_processBatch (s : AggState) (es : List Endpoint) (h : AggInv s) :
    AggInv (processBatch s es) := by
  induction es generalizing s with
  | nil => exact h
  | cons c es ih => exact ih (stepAgg s c) (aggInv_step s c h)

theorem parse_api_method_method_mem (el : MethodElement) (r : String)
    (rec : ApiMethodEndpoint) (h : parse_api_method el r = some rec) :
    rec.http_method ∈ API_METHODS := by
  unfold parse_api_method at h
  split at h
  · cases h
  · rename_i heq
    cases h
    simpa using match_api_text_mem _ _ heq

theorem stepAgg_out_mem (s : AggState) (e a : Endpoint) (h : a ∈ (stepAgg s e).out) :
    a ∈ s.out ∨ a = e := by
  unfold stepAgg at h
  split at h
  · exact Or.inl h
  · split at h
    · rcases List.mem_append.mp h with h | h
      · exact Or.inl h
      · exact Or.inr (List.mem_singleton.mp h)
    · exact Or.inl h

theorem processBatch_out_mem (s : AggState) (es : List Endpoint) (a : Endpoint)
    (h : a ∈ (processBatch s es).out) : a ∈ s.out ∨ a ∈ es := by
  induction es generalizing s with
  | nil => exact Or.inl h
  | cons c es ih =>
    rcases ih (stepAgg s c) h with h' | h'
    · rcases stepAgg_out_mem s c a h' with h'' | h''
      · exact Or.inl h''
      · exact Or.inr (h'' ▸ List.mem_cons_self _ _)
    · exact Or.inr (List.mem_cons_of_mem _ h')

theorem parse_page_method_mem (doc : List HtmlNode) (r : String) (e : Endpoint)
    (h : e ∈ parse_canvas_api_page doc r) : e.http_method ∈ CANVAS_METHODS := by
  unfold parse_canvas_api_page at h
  obtain ⟨i, _, hex⟩ := List.mem_filterMap.mp h
  split at hex
  · exact extract_method_mem _ _ _ _ hex
  · cases hex

/- ================= Claim theorems ================= -/

/-- C1: on the end-to-end scenario page (method heading "GET /api/v1/users",
paragraph "Lists users.", 2-row parameter table) the extractor yields exactly
one record with httpMethod GET, path /api/v1/users, description
"Lists users." and 2 parameters; the aggregator accepts it; and the tabular
projection of it has parameter_count = 2. -/
theorem canvas_end_to_end_scenario :
    parse_canvas_api_page doc_users "Users" = [endpoint_users] ∧
    endpoint_users.http_method = "GET" ∧
    endpoint_users.path = "/api/v1/users" ∧
    endpoint_users.description = "Lists users." ∧
    endpoint_users.parameters.length = 2 ∧
    processBatch agg_init (parse_canvas_api_page doc_users "Users") =
      ⟨["Users_GET_/api/v1/users"], [endpoint_users]⟩ ∧
    save_endpoints_to_csv [endpoint_users] =
      [⟨"Users", "List users", "GET", "/api/v1/users", "Lists users.", "", 2⟩] := by
  decide

/-- C2 counterexample: a section whose own `h3` carries the valid method line
"GET /api/v1/users" (with description and parameter table present) is
discarded by the extractor solely because its heading has no anchor text —
the identical section with the anchor restored is extracted — so a missing
name does cause discard, refuting that method+path are the only mandatory
fields at extraction time. -/
theorem extraction_discards_missing_name :
    extract_endpoint_from_section doc_noname 0 "Users" = none ∧
    find_next doc_noname 0 isH3Node = some 1 ∧
    method_match (nodeText (getNode doc_noname 1)) = some ("GET", "/api/v1/users") ∧
    (extract_endpoint_from_section doc_named 0 "Users").isSome = true := by
  decide

/-- C2 amended: in `extract_endpoint_from_section`, once a nonempty anchor
name is found and the next `h3` matches the method pattern, extraction always
succeeds — a missing description, parameter table or example block never
causes discard; in `parse_api_method`, a method/path match alone guarantees a
record with nonempty synthesized name and description.  (The original claim
fails only in that `extract_endpoint_from_section` also requires the anchor
name, checked before method+path.) -/
theorem mandatory_fields_at_extraction :
    (∀ (doc : List HtmlNode) (i : Nat) (r nm : String) (j : Nat) (m p : String),
      getNode doc i = HtmlNode.h2 (some nm) → nm ≠ "" →
      find_next doc i isH3Node = some j →
      method_match (nodeText (getNode doc j)) = some (m, p) →
      ∃ e, extract_endpoint_from_section doc i r = some e ∧
        e.http_method = m ∧ e.path = p ∧ e.name = nm) ∧
    (∀ (el : MethodElement) (r m p : String),
      match_api_text el.text = some (m, p) →
      ∃ rec, parse_api_method el r = some rec ∧ rec.http_method = m ∧ rec.path = p ∧
        rec.name ≠ "" ∧ rec.description ≠ "") :=
  ⟨extract_succeeds_of_method, parse_api_method_total⟩

theorem mandatory_fields_at_extraction_witness :
    (∃ e, extract_endpoint_from_section doc_named 0 "Users" = some e ∧
      e.http_method = "GET" ∧ e.path = "/api/v1/users" ∧ e.name = "List users") ∧
    (∃ rec, parse_api_method el_get_users "Users" = some rec ∧
      rec.http_method = "GET" ∧ rec.path = "/api/v1/users" ∧
      rec.name ≠ "" ∧ rec.description ≠ "") :=
  ⟨mandatory_fields_at_extraction.1 doc_named 0 "Users" "List users" 1 "GET" "/api/v1/users"
      (by decide) (by decide) (by decide) (by decide),
   mandatory_fields_at_extraction.2 el_get_users "Users" "GET" "/api/v1/users" (by decide)⟩

/-- C3: each candidate is skipped when its id is already seen, skipped when
the required-field check fails, and otherwise recorded; consequently the
final output is the old output followed by a required-field-passing
subsequence of the batch in arrival order, and no record with an empty
description ever appears in an aggregate built from the empty state. -/
theorem aggregator_order_and_required_gate :
    (∀ (s : AggState) (e : Endpoint),
      (endpoint_id e ∈ s.seen → stepAgg s e = s) ∧
      (endpoint_id e ∉ s.seen → ¬ requiredOk e → stepAgg s e = s) ∧
      (endpoint_id e ∉ s.seen → requiredOk e →
        stepAgg s e = ⟨endpoint_id e :: s.seen, s.out ++ [e]⟩)) ∧
    (∀ (s : AggState) (es : List Endpoint), ∃ acc : List Endpoint,
      acc.Sublist es ∧ (processBatch s es).out = s.out ++ acc ∧
      ∀ e ∈ acc, requiredOk e) ∧
    (∀ es : List Endpoint,
      (processBatch agg_init es).out.all (fun e => !(e.description == "")) = true) := by
  refine ⟨?_, processBatch_out_decomp, ?_⟩
  · intro s e
    refine ⟨?_, ?_, ?_⟩
    · intro h
      exact stepAgg_skip s e (Or.inl h)
    · intro h hreq
      exact stepAgg_skip s e (Or.inr hreq)
    · intro h hreq
      unfold stepAgg
      rw [if_neg h, if_pos hreq]
  · intro es
    rw [List.all_eq_true]
    intro e he
    obtain ⟨acc, _, hout, hreq⟩ := processBatch_out_decomp agg_init es
    rw [hout] at he
    have he' : e ∈ acc := by simpa [agg_init] using he
    have : requiredOk e := hreq e he'
    simpa using this.2.2.2.2

theorem aggregator_order_witness :
    stepAgg agg_init endpoint_users =
      ⟨[endpoint_id endpoint_users], [endpoint_users]⟩ :=
  (aggregator_order_and_required_gate.1 agg_init endpoint_users).2.2
    (by decide) (by decide)

/-- C4: in every reachable aggregator state, no two accepted records share
the same (resource, httpMethod, path) triple. -/
theorem aggregator_identity_uniqueness (batches : List (List Endpoint)) :
    (batches.foldl processBatch agg_init).out.Pairwise
      (fun a b => ¬(a.resource = b.resource ∧ a.http_method = b.http_method ∧
        a.path = b.path)) := by
  have hfold : ∀ (bs : List (List Endpoint)) (s : AggState), AggInv s →
      AggInv (bs.foldl processBatch s) := by
    intro bs
    induction bs with
    | nil => exact fun s h => h
    | cons b bs ih => exact fun s h => ih _ (aggInv_processBatch s b h)
  refine List.Pairwise.imp ?_ (hfold batches agg_init aggInv_init).2
  intro a b hid hab
  exact hid (by unfold endpoint_id; rw [hab.1, hab.2.1, hab.2.2])

/-- C5: feeding the same batch into the aggregator twice, from any state,
yields the same final state (seen-set and accepted output) as feeding it
once. -/
theorem aggregator_idempotent_dedup (s : AggState) (es : List Endpoint) :
    processBatch (processBatch s es) es = processBatch s es := by
  apply processBatch_skip
  intro e he
  exact processBatch_saturates s es e he

/-- C6: every record accepted by the crawl is labelled with one of the five
enumerated HTTP verbs (the canvas extractor in fact only ever produces the
first four), every record produced by parse_api_method likewise, and a
heading reading "FETCH /foo" produces no candidate under either extractor. -/
theorem accepted_method_enumeration :
    (∀ (pages : List (List HtmlNode × String)) (e : Endpoint),
      e ∈ (crawl_canvas_api pages).out → e.http_method ∈ API_METHODS) ∧
    (∀ (el : MethodElement) (r : String) (rec : ApiMethodEndpoint),
      parse_api_method el r = some rec → rec.http_method ∈ API_METHODS) ∧
    method_match "FETCH /foo" = none ∧
    extract_endpoint_from_section doc_fetch 0 "R" = none ∧
    parse_api_method el_fetch "R" = none := by
  refine ⟨?_, parse_api_method_method_mem, by decide, by decide, by decide⟩
  have hfold : ∀ (pages : List (List HtmlNode × String)) (s : AggState),
      (∀ a ∈ s.out, a.http_method ∈ API_METHODS) →
      ∀ a ∈ (pages.foldl (fun s pg => processBatch s (parse_canvas_api_page pg.1 pg.2)) s).out,
        a.http_method ∈ API_METHODS := by
    intro pages
    induction pages with
    | nil => exact fun s h => h
    | cons pg pages ih =>
      intro s h
      apply ih
      intro a ha
      rcases processBatch_out_mem _ _ _ ha with ha | ha
      · exact h a ha
      · exact canvas_methods_sub _ (parse_page_method_mem _ _ _ ha)
  intro pages e he
  exact hfold pages agg_init (by intro a ha; cases ha) e he

theorem accepted_method_enumeration_witness :
    endpoint_users.http_method ∈ API_METHODS ∧
    rec_get_users.http_method ∈ API_METHODS :=
  ⟨accepted_method_enumeration.1 [(doc_users, "Users")] endpoint_users (by decide),
   accepted_method_enumeration.2.1 el_get_users "Users" rec_get_users (by decide)⟩

/-- C9: the identity key is the bare concatenation
resource ++ "_" ++ http_method ++ "_" ++ path, which is not injective over
triples: the two fixture records have distinct (resource, httpMethod, path)
triples but the same key "A_GET_/x_POST_/y", so the second one — although it
passes the required-field gate — is skipped as a duplicate of the first. -/
theorem endpoint_id_collision :
    (∀ e : Endpoint,
      endpoint_id e = e.resource ++ "_" ++ e.http_method ++ "_" ++ e.path) ∧
    endpoint_id endpoint_collide_a = endpoint_id endpoint_collide_b ∧
    ¬(endpoint_collide_a.resource = endpoint_collide_b.resource ∧
      endpoint_collide_a.http_method = endpoint_collide_b.http_method ∧
      endpoint_collide_a.path = endpoint_collide_b.path) ∧
    requiredOk endpoint_collide_b ∧
    (processBatch agg_init [endpoint_collide_a, endpoint_collide_b]).out =
      [endpoint_collide_a] :=
  ⟨fun _ => rfl, by decide, by decide, by decide, by decide⟩

/-- C10: `find_next` searches forward through the whole document, so the
heading "Alpha" — which has an anchor but no `h3`, paragraph or table of its
own — is assigned the method POST, path /api/v1/things, description and
parameter table that belong to the next section ("Beta"). -/
theorem find_next_crosses_sections :
    getNode doc_cross 0 = HtmlNode.h2 (some "Alpha") ∧
    getNode doc_cross 1 = HtmlNode.h2 (some "Beta") ∧
    find_next doc_cross 0 isH3Node = some 2 ∧
    extract_endpoint_from_section doc_cross 0 "Things" =
      some ⟨"Things", "Alpha", "POST", "/api/v1/things", "Creates a thing.",
            [⟨"id", "integer", "the id"⟩], "", ""⟩ ∧
    extract_endpoint_from_section doc_cross 1 "Things" =
      some ⟨"Things", "Beta", "POST", "/api/v1/things", "Creates a thing.",
            [⟨"id", "integer", "the id"⟩], "", ""⟩ := by
  decide

set_option maxRecDepth 4000 in
theorem description_truncation_roundtrip_witness :
    (truncate200 (truncate500 descr600)).length = 203 :=
  (description_truncation_roundtrip.1 descr600 (by decide)).2.2.2
